import Mathlib

/-!
Verification of the image-effects pipeline of the color-grid-generator
repository (`src/utils/effectsUtils.ts` and the grain/canvas code in
`src/components/ColorGrid.tsx`).

Modelling conventions:
* A `Uint8ClampedArray` is a `List ℕ`; a store into it clamps to `[0,255]`
  and rounds to the nearest integer, ties to even (ECMAScript `ToUint8Clamp`).
* JS numbers occurring in the per-pixel arithmetic are modelled exactly:
  by `ℚ` where the computation stays rational (thresholds, dithering weights,
  grain noise — all the intermediate values there are dyadic, so binary
  floating point evaluates them exactly), and by `ℝ` for `Math.pow` and
  `Math.sqrt`.
* Reading a typed array out of bounds yields `undefined` in JS; storing the
  resulting `NaN` into a `Uint8ClampedArray` stores `0`, and writes at an
  out-of-bounds index are discarded (`List.set` beyond the length is a no-op,
  matching that).
* `Math.random()` is modelled as an injected stream `ℕ → ℚ` indexed by call
  order, and `Date.now()` as an explicit argument.
-/

namespace ColorGrid

/-- An RGBA pixel buffer: `width × height` pixels, 4 bytes per pixel,
row-major flat data (the `ImageData` of the source). -/
structure PixelBuffer where
  width : ℕ
  height : ℕ
  data : List ℕ
deriving DecidableEq, Repr

/-- Round a rational to the nearest integer, ties to even
(the rounding ECMAScript `ToUint8Clamp` performs). -/
def roundHalfEven (q : ℚ) : ℤ :=
  if q - ⌊q⌋ < 1/2 then ⌊q⌋
  else if 1/2 < q - ⌊q⌋ then ⌊q⌋ + 1
  else if ⌊q⌋ % 2 = 0 then ⌊q⌋ else ⌊q⌋ + 1

/-- Store a rational into a `Uint8ClampedArray` slot: round to nearest (ties
to even) and clamp to `[0, 255]`. -/
def clampStore (q : ℚ) : ℕ := (max 0 (min 255 (roundHalfEven q))).toNat

/-- JS `expr || d` for an optionally-present numeric config field
(`effect.config.gamma?.value || 1`): both `undefined` and `0` are falsy. -/
def jsOrQ (v : Option ℚ) (d : ℚ) : ℚ :=
  match v with
  | none => d
  | some x => if x = 0 then d else x

/-- JS `expr || d` for an optionally-present integer config field. -/
def jsOrZ (v : Option ℤ) (d : ℤ) : ℤ :=
  match v with
  | none => d
  | some x => if x = 0 then d else x

/-- Read of a typed array at a possibly negative index, whose value is then
stored into a `Uint8ClampedArray`: an out-of-range read gives `undefined`,
and storing the resulting `NaN` stores `0`. -/
def jsRead (data : List ℕ) (i : ℤ) : ℕ :=
  if 0 ≤ i then data.getD i.toNat 0 else 0

/-! ## Effect descriptors (`src/types/index.ts`) -/

/-- The `EffectType` union of the source. -/
inductive EffectType where
  | blur | grain | gamma | threshold | stippling | halftone
  | edgeDetection | vignette | rgbShift | crtScreen | ledScreen | dithering
deriving DecidableEq, Repr

/-- The halftone `shape` enum. -/
inductive HalftoneShape where
  | circle | square
deriving DecidableEq, Repr

structure BlurConfig where
  radius : ℚ
deriving DecidableEq, Repr

structure GrainConfig where
  opacity : ℚ
deriving DecidableEq, Repr

structure GammaConfig where
  value : ℚ
deriving DecidableEq, Repr

structure ThresholdConfig where
  value : ℚ
deriving DecidableEq, Repr

structure StipplingConfig where
  density : ℚ
  dotSize : ℚ
deriving DecidableEq, Repr

structure HalftoneConfig where
  dotSize : ℚ
  angle : ℚ
  shape : HalftoneShape
deriving DecidableEq, Repr

structure VignetteConfig where
  strength : ℚ
deriving DecidableEq, Repr

/-- The `rgbShift.amount` config; the UI writes it with `parseInt`, so it is
an integer. -/
structure RgbShiftConfig where
  amount : ℤ
deriving DecidableEq, Repr

structure CrtScreenConfig where
  scanlineIntensity : ℚ
  curvature : ℚ
deriving DecidableEq, Repr

structure LedScreenConfig where
  pixelSize : ℚ
  gap : ℚ
deriving DecidableEq, Repr

/-- The `EffectConfig` record of the source: every per-kind sub-record is
optional. -/
structure EffectConfig where
  blur : Option BlurConfig := none
  grain : Option GrainConfig := none
  gamma : Option GammaConfig := none
  threshold : Option ThresholdConfig := none
  stippling : Option StipplingConfig := none
  halftone : Option HalftoneConfig := none
  vignette : Option VignetteConfig := none
  rgbShift : Option RgbShiftConfig := none
  crtScreen : Option CrtScreenConfig := none
  ledScreen : Option LedScreenConfig := none
deriving DecidableEq, Repr

/-- An effect descriptor (`ImageEffect` of the source). -/
structure ImageEffect where
  id : String
  type : EffectType
  enabled : Bool
  config : EffectConfig
deriving DecidableEq, Repr

/-- The TS string literal of each effect type (used in the descriptor id). -/
def effectTypeName : EffectType → String
  | .blur => "blur"
  | .grain => "grain"
  | .gamma => "gamma"
  | .threshold => "threshold"
  | .stippling => "stippling"
  | .halftone => "halftone"
  | .edgeDetection => "edge-detection"
  | .vignette => "vignette"
  | .rgbShift => "rgb-shift"
  | .crtScreen => "crt-screen"
  | .ledScreen => "led-screen"
  | .dithering => "dithering"

/-- The `defaultConfigs` record inside `createDefaultEffect`
(`effectsUtils.ts` lines 4-17). -/
def defaultConfigs : EffectType → EffectConfig
  | .blur => { blur := some ⟨2⟩ }
  | .grain => { grain := some ⟨30⟩ }
  | .gamma => { gamma := some ⟨6/5⟩ }
  | .threshold => { threshold := some ⟨128⟩ }
  | .stippling => { stippling := some ⟨50, 2⟩ }
  | .halftone => { halftone := some ⟨4, 45, .circle⟩ }
  | .edgeDetection => {}
  | .vignette => { vignette := some ⟨50⟩ }
  | .rgbShift => { rgbShift := some ⟨3⟩ }
  | .crtScreen => { crtScreen := some ⟨30, 10⟩ }
  | .ledScreen => { ledScreen := some ⟨3, 1⟩ }
  | .dithering => {}

/-- `createDefaultEffect` (`effectsUtils.ts` lines 3-25); `Date.now()` is the
explicit argument `now`. -/
def createDefaultEffect (type : EffectType) (now : ℕ) : ImageEffect :=
  { id := effectTypeName type ++ "-" ++ toString now
    type := type
    enabled := true
    config := defaultConfigs type }

/-! ## Gamma (`applyGamma`, `effectsUtils.ts` lines 100-111) -/

/-- Round a real to the nearest integer, ties to even
(ECMAScript `ToUint8Clamp` applied to a float channel value). -/
noncomputable def roundHalfEvenR (x : ℝ) : ℤ :=
  if x - ⌊x⌋ < 1/2 then ⌊x⌋
  else if 1/2 < x - ⌊x⌋ then ⌊x⌋ + 1
  else if ⌊x⌋ % 2 = 0 then ⌊x⌋ else ⌊x⌋ + 1

/-- Store a real channel value into a `Uint8ClampedArray` slot. -/
noncomputable def clampStoreR (x : ℝ) : ℕ := (max 0 (min 255 (roundHalfEvenR x))).toNat

/-- The per-channel gamma curve before storing:
`Math.pow(v / 255, 1 / gamma) * 255`. -/
noncomputable def gammaChannel (gamma : ℝ) (v : ℝ) : ℝ :=
  (v / 255) ^ (1 / gamma) * 255

/-- One channel of `applyGamma`: the gamma curve, stored into the clamped
array. -/
noncomputable def gammaMap (gamma : ℝ) (v : ℕ) : ℕ :=
  clampStoreR (gammaChannel gamma (v : ℝ))

/-- `applyGamma`: the loop transforms every byte whose offset is not an alpha
offset (`i`, `i+1`, `i+2` of each group of four) and leaves alpha alone. -/
noncomputable def applyGamma (img : PixelBuffer) (gamma : ℝ) : PixelBuffer :=
  { img with
    data := (List.range img.data.length).map fun i =>
      if i % 4 = 3 then img.data.getD i 0
      else gammaMap gamma (img.data.getD i 0) }

/-! ## Threshold (`applyThreshold`, `effectsUtils.ts` lines 113-125) -/

/-- `(data[i] + data[i+1] + data[i+2]) / 3`; `none` models the `NaN` that a
read past the end of the array produces. -/
def jsGray (data : List ℕ) (base : ℕ) : Option ℚ :=
  match data[base]?, data[base + 1]?, data[base + 2]? with
  | some r, some g, some b => some (((r : ℚ) + g + b) / 3)
  | _, _, _ => none

/-- The binarized value written to each of R,G,B of a pixel group starting at
`base` (`NaN > threshold` is false, yielding `0`). -/
def thresholdValue (t : ℚ) (data : List ℕ) (base : ℕ) : ℕ :=
  match jsGray data base with
  | some gray => if gray > t then 255 else 0
  | none => 0

/-- `applyThreshold`: R,G,B of each pixel get the binarized luminance of the
pixel; alpha (offset `i+3`) is untouched. -/
def applyThreshold (img : PixelBuffer) (t : ℚ) : PixelBuffer :=
  { img with
    data := (List.range img.data.length).map fun i =>
      if i % 4 = 3 then img.data.getD i 0
      else thresholdValue t img.data (i - i % 4) }

/-! ## Edge detection (`applyEdgeDetection`, `effectsUtils.ts` lines 127-161) -/

/-- Per-pixel luminance read by the Sobel pass. -/
def grayAt (data : List ℕ) (w x y : ℕ) : ℚ :=
  ((data.getD ((y * w + x) * 4) 0 + data.getD ((y * w + x) * 4 + 1) 0
      + data.getD ((y * w + x) * 4 + 2) 0 : ℕ) : ℚ) / 3

/-- The Sobel x-kernel of the source. -/
def sobelX : List (List ℤ) := [[-1, 0, 1], [-2, 0, 2], [-1, 0, 1]]

/-- The Sobel y-kernel of the source. -/
def sobelY : List (List ℤ) := [[-1, -2, -1], [0, 0, 0], [1, 2, 1]]

/-- The accumulation loop `for i in -1..1, for j in -1..1:
gray(x+j, y+i) * kernel[i+1][j+1]` (indices shifted to `0..2`). -/
def sobelAccum (kernel : List (List ℤ)) (data : List ℕ) (w x y : ℕ) : ℚ :=
  ((List.range 3).map fun i =>
    ((List.range 3).map fun j =>
      grayAt data w (x + j - 1) (y + i - 1) * ((kernel.getD i []).getD j 0)).sum).sum

/-- Exact round-to-nearest (ties to even) of the real square root of a
nonnegative rational: the value `Math.sqrt` feeds into the clamped store.
`n = ⌊√q⌋`, and `√q` is compared with `n + 1/2` by comparing `q` with
`(n + 1/2)² = (2n+1)²/4`. -/
def sqrtRound (q : ℚ) : ℕ :=
  let n := Nat.sqrt ⌊q⌋.toNat
  if q < ((2 * n + 1) ^ 2 : ℚ) / 4 then n
  else if ((2 * n + 1) ^ 2 : ℚ) / 4 < q then n + 1
  else if n % 2 = 0 then n else n + 1

/-- A pixel index `p` lies in the 1-pixel-excluded interior of a `w × h`
grid (the write condition of the Sobel loops, with `x = p % w`,
`y = p / w`). -/
def interiorPix (w h p : ℕ) : Prop :=
  1 ≤ p % w ∧ p % w + 1 < w ∧ 1 ≤ p / w ∧ p / w + 1 < h

instance (w h p : ℕ) : Decidable (interiorPix w h p) := by
  unfold interiorPix
  infer_instance

/-- `applyEdgeDetection`: `newData` starts all-zero; interior pixels get the
clamped Sobel magnitude in R,G,B and `255` in alpha; the 1-pixel border (and
everything else) stays zero. -/
def applyEdgeDetection (img : PixelBuffer) : PixelBuffer :=
  { img with
    data := (List.range img.data.length).map fun k =>
      let p := k / 4
      if interiorPix img.width img.height p then
        if k % 4 = 3 then 255
        else
          min 255 (sqrtRound
            ((sobelAccum sobelX img.data img.width (p % img.width) (p / img.width)) ^ 2
              + (sobelAccum sobelY img.data img.width (p % img.width) (p / img.width)) ^ 2))
      else 0 }

/-! ## RGB shift (`applyRGBShift`, `effectsUtils.ts` lines 163-191) -/

/-- Source column of the red channel: `Math.min(width - 1, x + amount)` —
clamped only from above. -/
def redSrc (width x : ℕ) (amount : ℤ) : ℤ :=
  min ((width : ℤ) - 1) ((x : ℤ) + amount)

/-- Source column of the blue channel: `Math.max(0, x - amount)` — clamped
only from below. -/
def blueSrc (x : ℕ) (amount : ℤ) : ℤ :=
  max 0 ((x : ℤ) - amount)

/-- `applyRGBShift`: red is sampled at `redSrc`, blue at `blueSrc` (both in
the same row), green and alpha are copied; bytes never written by the loops
stay at the fresh array's zero. -/
def applyRGBShift (img : PixelBuffer) (amount : ℤ) : PixelBuffer :=
  { img with
    data := (List.range img.data.length).map fun k =>
      let p := k / 4
      if 0 < img.width ∧ p / img.width < img.height then
        match k % 4 with
        | 0 => jsRead img.data
            ((((p / img.width * img.width : ℕ) : ℤ)
              + redSrc img.width (p % img.width) amount) * 4)
        | 1 => img.data.getD k 0
        | 2 => jsRead img.data
            ((((p / img.width * img.width : ℕ) : ℤ)
              + blueSrc (p % img.width) amount) * 4 + 2)
        | _ => img.data.getD k 0
      else 0 }

/-! ## Dithering (`applyDithering`, `effectsUtils.ts` lines 193-235) -/

/-- `data[i] = Math.min(255, Math.max(0, data[i] + amt))`: clamp, then the
clamped-array store rounds. All the intermediate JS floats here are dyadic
rationals, so `ℚ` models them exactly. -/
def diffuse (data : List ℕ) (i : ℕ) (amt : ℚ) : List ℕ :=
  data.set i (clampStore (min 255 (max 0 ((data.getD i 0 : ℚ) + amt))))

/-- The body of the channel loop of Floyd-Steinberg dithering: binarize
channel `c` of pixel `p` at threshold 128, then diffuse the quantization
error to the four forward neighbours with weights 7/16, 3/16, 5/16, 1/16,
under the same in-bounds guards as the source. -/
def ditherChannel (w h p c : ℕ) (data : List ℕ) : List ℕ :=
  let idx := p * 4 + c
  let x := p % w
  let y := p / w
  let old := data.getD idx 0
  let npx : ℕ := if old > 128 then 255 else 0
  let err : ℚ := (old : ℚ) - (npx : ℚ)
  let d0 := data.set idx npx
  let d1 := if x + 1 < w then diffuse d0 ((y * w + (x + 1)) * 4 + c) (err * 7 / 16) else d0
  let d2 := if y + 1 < h ∧ 0 < x then
      diffuse d1 (((y + 1) * w + (x - 1)) * 4 + c) (err * 3 / 16) else d1
  let d3 := if y + 1 < h then diffuse d2 (((y + 1) * w + x) * 4 + c) (err * 5 / 16) else d2
  if y + 1 < h ∧ x + 1 < w then
    diffuse d3 (((y + 1) * w + (x + 1)) * 4 + c) (err * 1 / 16)
  else d3

/-- One pixel of the dithering pass: the channel loop `c = 0, 1, 2`. -/
def ditherPixel (w h : ℕ) (data : List ℕ) (p : ℕ) : List ℕ :=
  ditherChannel w h p 2 (ditherChannel w h p 1 (ditherChannel w h p 0 data))

/-- `applyDithering`: pixels are processed in row-major order
(`p = y * width + x` runs over `0, 1, …, height*width - 1`). -/
def applyDithering (img : PixelBuffer) : PixelBuffer :=
  { img with
    data := (List.range (img.height * img.width)).foldl
      (ditherPixel img.width img.height) img.data }

/-! ## Grain (`applyGrainEffect`, `src/components/ColorGrid.tsx`) -/

/-- `applyGrainEffect`: ONE call to `Math.random()` per pixel (the loop
draws `noise` once per group of four bytes), and the same noise value is
added to R, G and B of that pixel; alpha untouched. `rand n` is the value of
the `n`-th call to the random source. -/
def applyGrainEffect (img : PixelBuffer) (opacity : ℚ) (rand : ℕ → ℚ) : PixelBuffer :=
  { img with
    data := (List.range img.data.length).map fun k =>
      if k % 4 = 3 then img.data.getD k 0
      else
        clampStore (max 0 (min 255
          ((img.data.getD k 0 : ℚ) + (rand (k / 4) - 1/2) * (opacity / 100) * 255))) }

/-- The grain rule as the specification states it: an independent draw of
the random source for every pixel AND every channel (channel `c` of pixel
`p` consumes draw `3 * p + c`), same noise formula and clamping. -/
def applyGrainPerChannel (img : PixelBuffer) (opacity : ℚ) (rand : ℕ → ℚ) : PixelBuffer :=
  { img with
    data := (List.range img.data.length).map fun k =>
      if k % 4 = 3 then img.data.getD k 0
      else
        clampStore (max 0 (min 255
          ((img.data.getD k 0 : ℚ)
            + (rand (3 * (k / 4) + k % 4) - 1/2) * (opacity / 100) * 255))) }

/-! ## The pipeline entry point (`applyEffectsToCanvas`, lines 27-77) -/

/-- The `switch` over one descriptor (lines 42-61): disabled descriptors and
kinds outside the raster switch leave the buffer alone. -/
noncomputable def applyEffect (buf : PixelBuffer) (e : ImageEffect) : PixelBuffer :=
  if e.enabled = false then buf
  else
    match e.type with
    | .gamma => applyGamma buf ((jsOrQ (e.config.gamma.map GammaConfig.value) 1 : ℚ) : ℝ)
    | .threshold => applyThreshold buf (jsOrQ (e.config.threshold.map ThresholdConfig.value) 128)
    | .edgeDetection => applyEdgeDetection buf
    | .rgbShift => applyRGBShift buf (jsOrZ (e.config.rgbShift.map RgbShiftConfig.amount) 3)
    | .dithering => applyDithering buf
    | _ => buf

/-- The data-level semantics of `applyEffectsToCanvas`: thread the pixel
buffer through the enabled raster effects in chain order. -/
noncomputable def applyEffectsToCanvas (buf : PixelBuffer) (effects : List ImageEffect) : PixelBuffer :=
  effects.foldl applyEffect buf

/-! ## The heap model of the entry point

`applyEffectsToCanvas` copies the input canvas's pixels
(`ctx.getImageData`, then `new Uint8ClampedArray(imageData.data)`), mutates
the copy, and writes the result into a freshly created canvas.  To state
aliasing facts (which arrays are mutated, which object is returned) we model
the JS heap as a list of byte arrays indexed by allocation order. -/

/-- The heap: cell `i` is the `i`-th allocated byte array. -/
structure Store where
  cells : List (List ℕ)
deriving Repr

/-- Allocate a fresh array; returns the new store and the new cell's id. -/
def alloc (s : Store) (d : List ℕ) : Store × ℕ :=
  (⟨s.cells ++ [d]⟩, s.cells.length)

/-- Read a heap cell. -/
def readCell (s : Store) (i : ℕ) : List ℕ :=
  s.cells.getD i []

/-- Overwrite a heap cell in place. -/
def writeCell (s : Store) (i : ℕ) (d : List ℕ) : Store :=
  ⟨s.cells.set i d⟩

/-- A canvas object: dimensions plus the id of its backing pixel array. -/
structure Canvas where
  width : ℕ
  height : ℕ
  dataId : ℕ
deriving Repr

/-- Whether the effect's implementation builds a fresh `newData` array
(edge detection and RGB shift) rather than writing the pixel array in
place (gamma, threshold, dithering). -/
def allocatesFresh : EffectType → Bool
  | .edgeDetection => true
  | .rgbShift => true
  | _ => false

/-- One iteration of the effect loop over the heap: disabled descriptors do
nothing; in-place kinds overwrite the processed-data cell; allocating kinds
return a fresh cell. -/
noncomputable def applyEffectH (s : Store) (pid w h : ℕ) (e : ImageEffect) : Store × ℕ :=
  if e.enabled = false then (s, pid)
  else
    let out := (applyEffect ⟨w, h, readCell s pid⟩ e).data
    if allocatesFresh e.type then alloc s out
    else (writeCell s pid out, pid)

/-- `applyEffectsToCanvas` over the heap (the successful `getContext` path):
`getImageData` copies the canvas pixels, `new Uint8ClampedArray` copies
again, the effect loop runs on the copy, and the result is put into a
freshly created output canvas. -/
noncomputable def applyEffectsToCanvasH (s0 : Store) (canvas : Canvas)
    (effects : List ImageEffect) : Store × Canvas :=
  let a1 := alloc s0 (readCell s0 canvas.dataId)
  let a2 := alloc a1.1 (readCell a1.1 a1.2)
  let a3 := effects.foldl (fun acc e => applyEffectH acc.1 acc.2 canvas.width canvas.height e) a2
  let a4 := alloc a3.1 (readCell a3.1 a3.2)
  (a4.1, ⟨canvas.width, canvas.height, a4.2⟩)

/-! ## Spec-side definitions -/

/-- The spec's `InvalidBufferError` (§7). -/
inductive BufferError where
  | invalidBuffer
deriving DecidableEq, Repr

/-- Modelled from the spec: the PixelBuffer validity invariant of §3
(`width > 0`, `height > 0`, `data.length == width*height*4`); the source has
no counterpart to it. -/
def validBuffer (b : PixelBuffer) : Bool :=
  decide (0 < b.width) && decide (0 < b.height)
    && decide (b.data.length = b.width * b.height * 4)

/-- Modelled from the spec: the fail-fast entry point of §7 — validate, then
run the chain; the source has no counterpart to the validation. -/
noncomputable def applyEffectChainSpec (b : PixelBuffer) (effects : List ImageEffect) :
    Except BufferError PixelBuffer :=
  if validBuffer b then .ok (applyEffectsToCanvas b effects)
  else .error .invalidBuffer

/-! ## Helper lemmas -/

theorem getD_set_ne (l : List ℕ) (i j v : ℕ) (h : i ≠ j) :
    (l.set i v).getD j 0 = l.getD j 0 := by
  simp [List.getD_eq_getElem?_getD, List.getElem?_set_ne h]

theorem getD_set_self (l : List ℕ) (i v : ℕ) (h : i < l.length) :
    (l.set i v).getD i 0 = v := by
  simp [List.getD_eq_getElem?_getD, List.getElem?_set_self, h]

theorem getD_range_map (f : ℕ → ℕ) (n k : ℕ) (hk : k < n) :
    ((List.range n).map f).getD k 0 = f k := by
  rw [List.getD_eq_getElem ((List.range n).map f) 0 (by simpa using hk)]
  simp

theorem getD_mem_le {l : List ℕ} {i b : ℕ} (hi : i < l.length)
    (h : ∀ v ∈ l, v ≤ b) : l.getD i 0 ≤ b := by
  rw [List.getD_eq_getElem l 0 hi]
  exact h _ (l.getElem_mem hi)

theorem clampStore_of_int (q : ℚ) (m : ℕ) (hm : m ≤ 255) (hq : q = m) :
    clampStore q = m := by
  subst hq
  unfold clampStore roundHalfEven
  rw [Int.floor_natCast]
  norm_num
  omega

/-! ## C5: RGB shift source-column clamping -/

/-- C5: the claim — for EVERY integer amount, including negative ones, both
source columns stay in `[0, width-1]` — is false: the red source column is
clamped only from above, so a negative amount drives it below `0` (and the
out-of-bounds read then materializes as a stored `0`).  Concretely, at
`width = 2`, `x = 0`, `amount = -1` the red source column is `-1`, and the
red byte of the first pixel of the shifted buffer is `0`, a value no pixel
of the input carries in its red channel. -/
theorem rgbShift_clamp_cex :
    redSrc 2 0 (-1) = -1 ∧ ¬ (0 ≤ redSrc 2 0 (-1)) ∧
      (applyRGBShift ⟨2, 1, [10, 20, 30, 40, 50, 60, 70, 80]⟩ (-1)).data.getD 0 0 = 0 := by
  refine ⟨by decide, by decide, ?_⟩
  decide

/-- C5 (amended): for every NON-negative shift amount — including amounts
larger than the width — the red source column `min (width-1) (x+amount)` and
the blue source column `max 0 (x-amount)` both stay in `[0, width-1]`, so no
channel reads out of bounds; for negative amounts this fails (see the
counterexample). -/
theorem rgbShift_nonneg_in_bounds (w x : ℕ) (amount : ℤ)
    (hw : 0 < w) (hx : x < w) (ha : 0 ≤ amount) :
    0 ≤ redSrc w x amount ∧ redSrc w x amount < (w : ℤ) ∧
      0 ≤ blueSrc x amount ∧ blueSrc x amount < (w : ℤ) := by
  unfold redSrc blueSrc
  omega

/-- Witness for `rgbShift_nonneg_in_bounds` at `w = 3`, `x = 1`,
`amount = 5`. -/
theorem rgbShift_nonneg_in_bounds_witness :
    0 < 3 ∧ (1 : ℕ) < 3 ∧ (0 : ℤ) ≤ 5 ∧
      (0 ≤ redSrc 3 1 5 ∧ redSrc 3 1 5 < (3 : ℤ) ∧
        0 ≤ blueSrc 1 5 ∧ blueSrc 1 5 < (3 : ℤ)) :=
  ⟨by decide, by decide, by decide,
    rgbShift_nonneg_in_bounds 3 1 5 (by decide) (by decide) (by decide)⟩

/-! ## C4: grain noise draws -/

/-- C4: the claim — the noise samples added to R, G and B of one pixel are
three INDEPENDENT draws of the injected random source — is false.  On a 1×1
buffer `[10,20,30,40]` with opacity 40 and a source whose first draw is `1`
and all later draws are `0`, the code adds the same `+51` to all three
channels (`[61,71,81,40]`), while three independent draws would give
`[61,0,0,40]`; the two disagree. -/
theorem grain_independent_draws_cex :
    (applyGrainEffect ⟨1, 1, [10, 20, 30, 40]⟩ 40 (fun n => if n = 0 then 1 else 0)).data
        = [61, 71, 81, 40] ∧
      (applyGrainPerChannel ⟨1, 1, [10, 20, 30, 40]⟩ 40 (fun n => if n = 0 then 1 else 0)).data
        = [61, 0, 0, 40] ∧
      applyGrainEffect ⟨1, 1, [10, 20, 30, 40]⟩ 40 (fun n => if n = 0 then 1 else 0)
        ≠ applyGrainPerChannel ⟨1, 1, [10, 20, 30, 40]⟩ 40 (fun n => if n = 0 then 1 else 0) := by
  have e1 : (applyGrainEffect ⟨1, 1, [10, 20, 30, 40]⟩ 40
      (fun n => if n = 0 then 1 else 0)).data = [61, 71, 81, 40] := by
    simp only [applyGrainEffect]
    norm_num [List.range_succ, List.getD]
    refine ⟨?_, ?_, ?_⟩ <;> apply clampStore_of_int <;> norm_num [min_def, max_def]
  have e2 : (applyGrainPerChannel ⟨1, 1, [10, 20, 30, 40]⟩ 40
      (fun n => if n = 0 then 1 else 0)).data = [61, 0, 0, 40] := by
    simp only [applyGrainPerChannel]
    norm_num [List.range_succ, List.getD]
    refine ⟨?_, ?_⟩ <;> apply clampStore_of_int <;> norm_num [min_def, max_def]
  refine ⟨e1, e2, fun h => ?_⟩
  have := congrArg PixelBuffer.data h
  rw [e1, e2] at this
  exact absurd this (by decide)

/-- C4 (amended): grain draws the random source ONCE per pixel (in row-major
pixel order) and adds that single sample to R, G and B alike, each result
clamped to `[0,255]` and alpha untouched: the code's grain coincides with the
per-pixel-per-channel rule exactly when the latter is fed the stream that
repeats each pixel's single draw three times. -/
theorem grain_single_draw_per_pixel (img : PixelBuffer) (opacity : ℚ) (rand : ℕ → ℚ) :
    applyGrainEffect img opacity rand
      = applyGrainPerChannel img opacity (fun n => rand (n / 3)) := by
  unfold applyGrainEffect applyGrainPerChannel
  simp only [PixelBuffer.mk.injEq, true_and]
  apply List.map_congr_left
  intro k _
  by_cases hk : k % 4 = 3
  · simp [hk]
  · have h3 : (3 * (k / 4) + k % 4) / 3 = k / 4 := by omega
    simp [hk, h3]

/-! ## C6: no buffer validation at the entry point -/

/-- A malformed buffer: positive dimensions but `data.length = 4 ≠ 2*1*4`. -/
def badBuf : PixelBuffer := ⟨2, 1, [5, 6, 7, 8]⟩

/-- C6: the claim — the entry point fails fast with `InvalidBufferError` on a
malformed buffer — is false: the source performs no validation at all.  On
`badBuf` (data length 4, not `2*1*4 = 8`) the spec-modelled checked entry
point errors, but the code's pipeline simply returns the malformed buffer
(here unchanged, the chain being empty) — no failure, no truncation, no
padding. -/
theorem no_invalid_buffer_error_cex :
    validBuffer badBuf = false ∧
      applyEffectChainSpec badBuf [] = Except.error BufferError.invalidBuffer ∧
      applyEffectsToCanvas badBuf [] = badBuf := by
  refine ⟨by decide, ?_, rfl⟩
  unfold applyEffectChainSpec
  rw [if_neg]
  decide

theorem length_diffuse (d : List ℕ) (i : ℕ) (a : ℚ) :
    (diffuse d i a).length = d.length := by
  simp [diffuse]

theorem length_diffuse_ite (P : Prop) [Decidable P] (d : List ℕ) (i : ℕ) (a : ℚ) :
    (if P then diffuse d i a else d).length = d.length := by
  split_ifs <;> simp [diffuse]

theorem length_ditherChannel (w h p c : ℕ) (d : List ℕ) :
    (ditherChannel w h p c d).length = d.length := by
  simp only [ditherChannel]
  rw [length_diffuse_ite, length_diffuse_ite, length_diffuse_ite, length_diffuse_ite,
    List.length_set]

theorem length_ditherPixel (w h : ℕ) (d : List ℕ) (p : ℕ) :
    (ditherPixel w h d p).length = d.length := by
  simp [ditherPixel, length_ditherChannel]

theorem length_dither_fold (w h : ℕ) (l : List ℕ) (d : List ℕ) :
    (l.foldl (ditherPixel w h) d).length = d.length := by
  induction l generalizing d with
  | nil => rfl
  | cons a l ih => simp [List.foldl_cons, ih, length_ditherPixel]

theorem applyEffect_shape (buf : PixelBuffer) (e : ImageEffect) :
    (applyEffect buf e).width = buf.width ∧ (applyEffect buf e).height = buf.height ∧
      (applyEffect buf e).data.length = buf.data.length := by
  unfold applyEffect
  split_ifs
  · exact ⟨rfl, rfl, rfl⟩
  · cases e.type <;>
      simp [applyGamma, applyThreshold, applyEdgeDetection, applyRGBShift,
        applyDithering, length_dither_fold]

/-- C6 (amended): the entry point performs no validation whatsoever: on ANY
buffer — malformed ones included — it runs to completion and returns a
buffer of the same dimensions with a data array of the same length (it never
fails, truncates, or pads; no `InvalidBufferError` exists in the code). -/
theorem pipeline_total_preserves_shape (buf : PixelBuffer) (effects : List ImageEffect) :
    (applyEffectsToCanvas buf effects).width = buf.width ∧
      (applyEffectsToCanvas buf effects).height = buf.height ∧
      (applyEffectsToCanvas buf effects).data.length = buf.data.length := by
  unfold applyEffectsToCanvas
  induction effects generalizing buf with
  | nil => exact ⟨rfl, rfl, rfl⟩
  | cons e l ih =>
    obtain ⟨h1, h2, h3⟩ := ih (applyEffect buf e)
    obtain ⟨g1, g2, g3⟩ := applyEffect_shape buf e
    rw [List.foldl_cons]
    exact ⟨h1.trans g1, h2.trans g2, h3.trans g3⟩

/-! ## C3: threshold idempotence -/

theorem jsGray_eq_none {data : List ℕ} {base : ℕ} (h : data.length ≤ base + 2) :
    jsGray data base = none := by
  unfold jsGray
  rw [List.getElem?_eq_none h]
  rcases data[base]? with _ | r <;> rcases data[base + 1]? with _ | g <;> rfl

theorem jsGray_eq_some {data : List ℕ} {base : ℕ} (h : base + 2 < data.length) :
    jsGray data base = some (((data.getD base 0 : ℚ) + data.getD (base + 1) 0
      + data.getD (base + 2) 0) / 3) := by
  unfold jsGray
  rw [List.getElem?_eq_getElem (by omega : base < data.length),
    List.getElem?_eq_getElem (by omega : base + 1 < data.length),
    List.getElem?_eq_getElem h]
  simp [List.getD_eq_getElem, h, show base < data.length by omega,
    show base + 1 < data.length by omega]

theorem thresholdValue_of_some {t : ℚ} {data : List ℕ} {base : ℕ} {g : ℚ}
    (h : jsGray data base = some g) :
    thresholdValue t data base = if g > t then 255 else 0 := by
  unfold thresholdValue
  rw [h]

theorem thresholdValue_of_none {t : ℚ} {data : List ℕ} {base : ℕ}
    (h : jsGray data base = none) : thresholdValue t data base = 0 := by
  unfold thresholdValue
  rw [h]

/-- C3: applying Threshold twice with the same parameter `t ∈ [0,255]` is the
same as applying it once: the first pass writes only `0` or `255` into R,G,B,
a second pass maps `0 ↦ 0` (as `0 > t` fails for `t ≥ 0`) and `255 ↦ 255`
(a pixel became `255` only because its luminance exceeded `t`, and luminance
is at most `255`, so `t < 255`); ragged tail groups of a malformed buffer
binarize to `0` in both passes.  Alpha bytes are untouched by both passes. -/
theorem threshold_idempotent (img : PixelBuffer) (t : ℚ)
    (ht0 : 0 ≤ t) (ht255 : t ≤ 255) (hv : ∀ v ∈ img.data, v ≤ 255) :
    applyThreshold (applyThreshold img t) t = applyThreshold img t := by
  obtain ⟨w, h, d⟩ := img
  simp only [applyThreshold, PixelBuffer.mk.injEq, true_and] at hv ⊢
  set f : ℕ → ℕ := fun i => if i % 4 = 3 then d.getD i 0 else thresholdValue t d (i - i % 4)
    with hf
  set d1 : List ℕ := (List.range d.length).map f with hd1
  have hlen : d1.length = d.length := by simp [hd1]
  have hval : ∀ j, j < d.length → j % 4 ≠ 3 →
      d1.getD j 0 = thresholdValue t d (j - j % 4) := by
    intro j hj hj3
    rw [hd1, getD_range_map f d.length j hj, hf]
    simp [hj3]
  apply List.ext_getElem
  · simp [hlen]
  intro i h1 h2
  have hid : i < d.length := by simpa [hlen] using h2
  rw [← List.getD_eq_getElem _ 0 h1, ← List.getD_eq_getElem _ 0 h2,
    getD_range_map _ _ _ (by simpa [hlen] using h2)]
  by_cases hi3 : i % 4 = 3
  · simp [hi3]
  · simp only [hi3, if_neg, ite_false]
    set b := i - i % 4 with hb
    have hb4 : b % 4 = 0 := by omega
    rw [hval i hid hi3]
    by_cases hbl : b + 2 < d.length
    · -- full pixel group: all three channels of d1 carry the binarized value
      set v := thresholdValue t d b with hvdef
      have hA : d1.getD b 0 = v := by
        have hh := hval b (by omega) (by omega)
        rwa [show b - b % 4 = b by omega] at hh
      have hB : d1.getD (b + 1) 0 = v := by
        have hh := hval (b + 1) (by omega) (by omega)
        rwa [show b + 1 - (b + 1) % 4 = b by omega] at hh
      have hC : d1.getD (b + 2) 0 = v := by
        have hh := hval (b + 2) (by omega) (by omega)
        rwa [show b + 2 - (b + 2) % 4 = b by omega] at hh
      have hjs1 : jsGray d1 b = some ((v : ℚ)) := by
        rw [jsGray_eq_some (by omega : b + 2 < d1.length), hA, hB, hC]
        congr 1
        ring
      rw [thresholdValue_of_some (jsGray_eq_some hbl)] at hvdef
      rw [thresholdValue_of_some hjs1]
      have hgray255 : ((d.getD b 0 : ℚ) + d.getD (b + 1) 0 + d.getD (b + 2) 0) / 3 ≤ 255 := by
        have q1 : ((d.getD b 0 : ℚ)) ≤ 255 := by
          exact_mod_cast getD_mem_le (show b < d.length by omega) hv
        have q2 : ((d.getD (b + 1) 0 : ℚ)) ≤ 255 := by
          exact_mod_cast getD_mem_le (show b + 1 < d.length by omega) hv
        have q3 : ((d.getD (b + 2) 0 : ℚ)) ≤ 255 := by
          exact_mod_cast getD_mem_le hbl hv
        linarith
      by_cases hgt : ((d.getD b 0 : ℚ) + d.getD (b + 1) 0 + d.getD (b + 2) 0) / 3 > t
      · rw [if_pos hgt] at hvdef
        rw [hvdef, if_pos (by push_cast; linarith)]
      · rw [if_neg hgt] at hvdef
        rw [hvdef, if_neg (by push_cast; linarith)]
    · -- ragged tail group: the luminance read past the end is NaN in both passes
      rw [thresholdValue_of_none (jsGray_eq_none (show d1.length ≤ b + 2 by omega)),
        thresholdValue_of_none (jsGray_eq_none (show d.length ≤ b + 2 by omega))]


/-- Witness for `threshold_idempotent` at a concrete 1×1 buffer and
`t = 128`. -/
theorem threshold_idempotent_witness :
    (0 : ℚ) ≤ 128 ∧ (128 : ℚ) ≤ 255 ∧
      (∀ v ∈ (⟨1, 1, [100, 200, 50, 7]⟩ : PixelBuffer).data, v ≤ 255) ∧
      applyThreshold (applyThreshold ⟨1, 1, [100, 200, 50, 7]⟩ 128) 128
        = applyThreshold ⟨1, 1, [100, 200, 50, 7]⟩ 128 :=
  ⟨by norm_num, by norm_num, by decide,
    threshold_idempotent ⟨1, 1, [100, 200, 50, 7]⟩ 128 (by norm_num) (by norm_num) (by decide)⟩

/-! ## C10: the gamma `|| 1` fallback -/

theorem roundHalfEvenR_natCast (v : ℕ) : roundHalfEvenR (v : ℝ) = v := by
  unfold roundHalfEvenR
  rw [Int.floor_natCast]
  norm_num

theorem clampStoreR_natCast (v : ℕ) (hv : v ≤ 255) : clampStoreR (v : ℝ) = v := by
  unfold clampStoreR
  rw [roundHalfEvenR_natCast]
  omega

theorem gammaMap_one (v : ℕ) (hv : v ≤ 255) : gammaMap 1 v = v := by
  unfold gammaMap gammaChannel
  rw [div_one, Real.rpow_one, div_mul_cancel₀ _ (by norm_num : (255 : ℝ) ≠ 0)]
  exact clampStoreR_natCast v hv

theorem applyGamma_one (img : PixelBuffer) (hv : ∀ v ∈ img.data, v ≤ 255) :
    applyGamma img 1 = img := by
  obtain ⟨w, h, d⟩ := img
  simp only [applyGamma, PixelBuffer.mk.injEq, true_and] at hv ⊢
  apply List.ext_getElem
  · simp
  intro i h1 h2
  rw [← List.getD_eq_getElem _ 0 h1, getD_range_map _ _ _ h2]
  by_cases hi3 : i % 4 = 3
  · rw [if_pos hi3, List.getD_eq_getElem d 0 h2]
  · rw [if_neg hi3, gammaMap_one _ (getD_mem_le h2 hv), List.getD_eq_getElem d 0 h2]

/-- C10: if a gamma descriptor's config has no `gamma` record, or its value
is `0` (both falsy in `effect.config.gamma?.value || 1`), the pipeline runs
Gamma with parameter `1` — the identity on every in-range channel value —
not the documented kind-specific default `1.2`; the `1.2` default exists only
in the config that `createDefaultEffect` attaches to a fresh gamma
descriptor. -/
theorem gamma_default_fallback (img : PixelBuffer) (e : ImageEffect) (now : ℕ)
    (hval : ∀ v ∈ img.data, v ≤ 255)
    (htype : e.type = EffectType.gamma) (hen : e.enabled = true)
    (hcfg : e.config.gamma = none ∨ e.config.gamma = some ⟨0⟩) :
    applyEffect img e = applyGamma img 1 ∧
      applyGamma img 1 = img ∧
      (createDefaultEffect EffectType.gamma now).config.gamma = some ⟨6/5⟩ := by
  refine ⟨?_, applyGamma_one img hval, rfl⟩
  obtain ⟨eid, ty, en, cfg⟩ := e
  simp only at htype hen
  subst htype
  subst hen
  unfold applyEffect
  simp only [Bool.true_eq_false, if_false]
  rcases hcfg with hc | hc <;> simp only at hc <;> rw [hc] <;> norm_num [jsOrQ]


/-- Witness for `gamma_default_fallback`: a 1×1 buffer and an enabled gamma
descriptor whose config carries no gamma record. -/
theorem gamma_default_fallback_witness :
    (∀ v ∈ (⟨1, 1, [9, 8, 7, 6]⟩ : PixelBuffer).data, v ≤ 255) ∧
      (applyEffect ⟨1, 1, [9, 8, 7, 6]⟩ ⟨"gamma-0", EffectType.gamma, true, {}⟩
          = applyGamma ⟨1, 1, [9, 8, 7, 6]⟩ 1 ∧
        applyGamma ⟨1, 1, [9, 8, 7, 6]⟩ 1 = ⟨1, 1, [9, 8, 7, 6]⟩ ∧
        (createDefaultEffect EffectType.gamma 0).config.gamma = some ⟨6/5⟩) :=
  ⟨by decide,
    gamma_default_fallback ⟨1, 1, [9, 8, 7, 6]⟩ ⟨"gamma-0", EffectType.gamma, true, {}⟩ 0
      (by decide) rfl rfl (Or.inl rfl)⟩

/-! ## C2: gamma round-trip -/

theorem roundHalfEvenR_eq_zero {x : ℝ} (h0 : 0 ≤ x) (h1 : x < 1/2) :
    roundHalfEvenR x = 0 := by
  have hf : ⌊x⌋ = 0 := Int.floor_eq_zero_iff.mpr ⟨h0, by linarith⟩
  unfold roundHalfEvenR
  rw [hf, if_pos (by norm_num; linarith)]

theorem clampStoreR_eq_zero {x : ℝ} (h0 : 0 ≤ x) (h1 : x < 1/2) :
    clampStoreR x = 0 := by
  unfold clampStoreR
  rw [roundHalfEvenR_eq_zero h0 h1]
  rfl

theorem applyGamma_length (img : PixelBuffer) (γ : ℝ) :
    (applyGamma img γ).data.length = img.data.length := by
  simp [applyGamma]

theorem applyGamma_getD (img : PixelBuffer) (γ : ℝ) (i : ℕ) (hi : i < img.data.length)
    (h3 : i % 4 ≠ 3) :
    (applyGamma img γ).data.getD i 0 = gammaMap γ (img.data.getD i 0) := by
  simp only [applyGamma]
  rw [getD_range_map _ _ _ hi, if_neg h3]

theorem gammaMap_tenth_ten : gammaMap (1/10 : ℝ) 10 = 0 := by
  unfold gammaMap gammaChannel
  rw [one_div_one_div]
  have h10 : ((10 : ℝ)) = ((10 : ℕ) : ℝ) := by norm_num
  rw [show ((10:ℕ):ℝ) / 255 = (10 : ℝ)/255 by norm_num]
  rw [h10, Real.rpow_natCast]
  apply clampStoreR_eq_zero
  · positivity
  · norm_num

theorem gammaMap_inv_zero : gammaMap (1/(1/10) : ℝ) 0 = 0 := by
  unfold gammaMap gammaChannel
  rw [show ((0:ℕ):ℝ) / 255 = 0 by norm_num]
  rw [Real.zero_rpow (by norm_num), zero_mul]
  exact clampStoreR_eq_zero le_rfl (by norm_num)

/-- C2: the claim — for every positive gamma `g`, gamma `g` followed by
gamma `1/g` lands within ±1 of every original R,G,B value — is false: with
`g = 1/10` the first pass computes `255·(10/255)^10 ≈ 2·10⁻¹²`, which the
clamped store rounds to `0`, and the second pass maps `0` to `0`; channel
value `10` ends at `0`, an error of `10`. -/
theorem gamma_roundtrip_cex :
    ¬ (∀ (img : PixelBuffer) (g : ℝ), 0 < g → (∀ v ∈ img.data, v ≤ 255) →
        ∀ i, i < img.data.length → i % 4 ≠ 3 →
          (((applyGamma (applyGamma img g) (1 / g)).data.getD i 0 : ℤ)
              - (img.data.getD i 0 : ℤ)).natAbs ≤ 1) := by
  intro hcl
  have hb : ((⟨1, 1, [10, 10, 10, 255]⟩ : PixelBuffer)).data.length = 4 := rfl
  have h := hcl ⟨1, 1, [10, 10, 10, 255]⟩ (1/10) (by norm_num) (by decide) 0
    (by rw [hb]; norm_num) (by norm_num)
  rw [applyGamma_getD _ _ 0 (by rw [applyGamma_length, hb]; norm_num) (by norm_num),
    applyGamma_getD _ _ 0 (by rw [hb]; norm_num) (by norm_num)] at h
  have hg0 : (⟨1, 1, [10, 10, 10, 255]⟩ : PixelBuffer).data.getD 0 0 = 10 := rfl
  rw [hg0, gammaMap_tenth_ten, gammaMap_inv_zero] at h
  norm_num at h

/-- C2 (amended): the gamma round-trip is exact in real arithmetic — for
every positive `g`, feeding the exact (unquantized) output of the gamma-`g`
curve into the gamma-`1/g` curve returns every integer channel value
`v ∈ [0,255]` exactly, so the final store reproduces `v` (well within ±1).
The ±1 bound of the claim fails only because each pass quantizes its output
to an integer, and for extreme gamma that quantization error is amplified
beyond ±1 (see the counterexample). -/
theorem gamma_roundtrip_exact_real (g : ℝ) (hg : 0 < g) (v : ℕ) (hv : v ≤ 255) :
    clampStoreR (gammaChannel (1/g) (gammaChannel g (v : ℝ))) = v := by
  unfold gammaChannel
  rw [mul_div_cancel_right₀ _ (by norm_num : (255:ℝ) ≠ 0), one_div_one_div,
    ← Real.rpow_mul (by positivity), one_div_mul_cancel (ne_of_gt hg), Real.rpow_one,
    div_mul_cancel₀ _ (by norm_num : (255:ℝ) ≠ 0)]
  exact clampStoreR_natCast v hv

/-- Witness for `gamma_roundtrip_exact_real` at `g = 2`, `v = 10`. -/
theorem gamma_roundtrip_exact_real_witness :
    (0 : ℝ) < 2 ∧ (10 : ℕ) ≤ 255 ∧
      clampStoreR (gammaChannel (1/2) (gammaChannel 2 ((10 : ℕ) : ℝ))) = 10 :=
  ⟨two_pos, by norm_num, gamma_roundtrip_exact_real 2 two_pos 10 (by norm_num)⟩

/-! ## C7: edge detection on uniform buffers -/

theorem sqrtRound_zero : sqrtRound 0 = 0 := by
  unfold sqrtRound
  norm_num

theorem grayAt_uniform {d : List ℕ} {w h r g b : ℕ}
    (hu : ∀ p, p < w * h → d.getD (p * 4) 0 = r ∧ d.getD (p * 4 + 1) 0 = g ∧
      d.getD (p * 4 + 2) 0 = b)
    {x y : ℕ} (hx : x < w) (hy : y < h) :
    grayAt d w x y = ((r : ℚ) + g + b) / 3 := by
  unfold grayAt
  have hp : y * w + x < w * h := by
    calc y * w + x < y * w + w := by omega
    _ = (y + 1) * w := by ring
    _ ≤ h * w := Nat.mul_le_mul_right _ (by omega)
    _ = w * h := Nat.mul_comm h w
  obtain ⟨h1, h2, h3⟩ := hu (y * w + x) hp
  rw [h1, h2, h3]
  push_cast
  ring

theorem sobelAccum_uniform (K : List (List ℤ)) {d : List ℕ} {w h r g b : ℕ}
    (hu : ∀ p, p < w * h → d.getD (p * 4) 0 = r ∧ d.getD (p * 4 + 1) 0 = g ∧
      d.getD (p * 4 + 2) 0 = b)
    {x y : ℕ} (hx1 : 1 ≤ x) (hx2 : x + 1 < w) (hy1 : 1 ≤ y) (hy2 : y + 1 < h) :
    sobelAccum K d w x y
      = (((r : ℚ) + g + b) / 3) *
          (((K.getD 0 []).getD 0 0 + (K.getD 0 []).getD 1 0 + (K.getD 0 []).getD 2 0
            + (K.getD 1 []).getD 0 0 + (K.getD 1 []).getD 1 0 + (K.getD 1 []).getD 2 0
            + (K.getD 2 []).getD 0 0 + (K.getD 2 []).getD 1 0 + (K.getD 2 []).getD 2 0 : ℤ) : ℚ) := by
  have hG : ∀ j i : ℕ, j < 3 → i < 3 →
      grayAt d w (x + j - 1) (y + i - 1) = ((r : ℚ) + g + b) / 3 := by
    intro j i hj hi
    exact grayAt_uniform hu (by omega) (by omega)
  unfold sobelAccum
  rw [show List.range 3 = [0, 1, 2] from rfl]
  simp only [List.map_cons, List.map_nil, List.sum_cons, List.sum_nil]
  rw [hG 0 0 (by norm_num) (by norm_num), hG 1 0 (by norm_num) (by norm_num),
    hG 2 0 (by norm_num) (by norm_num), hG 0 1 (by norm_num) (by norm_num),
    hG 1 1 (by norm_num) (by norm_num), hG 2 1 (by norm_num) (by norm_num),
    hG 0 2 (by norm_num) (by norm_num), hG 1 2 (by norm_num) (by norm_num),
    hG 2 2 (by norm_num) (by norm_num)]
  push_cast
  ring

/-- C7: on a uniform-color buffer (every pixel's R,G,B equal to `r,g,b`),
edge detection yields the all-zero Sobel magnitude at every interior pixel —
each of the nine sampled luminances equals `(r+g+b)/3`, and both Sobel
kernels sum to zero — so interior pixels get `0` in R,G,B and `255` in
alpha, while the 1-pixel border (excluded by the loops) stays at the fresh
array's zero. -/
theorem edge_detection_uniform (img : PixelBuffer) (r g b : ℕ)
    (hu : ∀ p, p < img.width * img.height →
      img.data.getD (p * 4) 0 = r ∧ img.data.getD (p * 4 + 1) 0 = g ∧
        img.data.getD (p * 4 + 2) 0 = b) :
    ∀ k, k < img.data.length →
      (applyEdgeDetection img).data.getD k 0
        = if interiorPix img.width img.height (k / 4) then
            (if k % 4 = 3 then 255 else 0)
          else 0 := by
  obtain ⟨w, h, d⟩ := img
  simp only at hu ⊢
  intro k hk
  simp only [applyEdgeDetection]
  rw [getD_range_map _ _ _ hk]
  by_cases hint : interiorPix w h (k / 4)
  · rw [if_pos hint, if_pos hint]
    by_cases h43 : k % 4 = 3
    · rw [if_pos h43, if_pos h43]
    · rw [if_neg h43, if_neg h43]
      obtain ⟨hx1, hx2, hy1, hy2⟩ := hint
      rw [sobelAccum_uniform sobelX hu hx1 hx2 hy1 hy2,
        sobelAccum_uniform sobelY hu hx1 hx2 hy1 hy2]
      norm_num [sobelX, sobelY, sqrtRound_zero]
  · rw [if_neg hint, if_neg hint]


/-- Witness for `edge_detection_uniform`: a 3×3 buffer uniformly `(7,7,7)`,
evaluated at byte 16 (the red byte of the single interior pixel) and at
byte 0 (a border byte). -/
theorem edge_detection_uniform_witness :
    (∀ p, p < (3 : ℕ) * 3 →
      (List.replicate 9 [7, 7, 7, 255]).flatten.getD (p * 4) 0 = 7 ∧
        (List.replicate 9 [7, 7, 7, 255]).flatten.getD (p * 4 + 1) 0 = 7 ∧
        (List.replicate 9 [7, 7, 7, 255]).flatten.getD (p * 4 + 2) 0 = 7) ∧
      ((applyEdgeDetection ⟨3, 3, (List.replicate 9 [7, 7, 7, 255]).flatten⟩).data.getD 16 0
        = if interiorPix 3 3 (16 / 4) then (if 16 % 4 = 3 then 255 else 0) else 0) ∧
      ((applyEdgeDetection ⟨3, 3, (List.replicate 9 [7, 7, 7, 255]).flatten⟩).data.getD 0 0
        = if interiorPix 3 3 (0 / 4) then (if 0 % 4 = 3 then 255 else 0) else 0) :=
  ⟨by decide,
    edge_detection_uniform ⟨3, 3, (List.replicate 9 [7, 7, 7, 255]).flatten⟩ 7 7 7
      (by decide) 16 (by decide),
    edge_detection_uniform ⟨3, 3, (List.replicate 9 [7, 7, 7, 255]).flatten⟩ 7 7 7
      (by decide) 0 (by decide)⟩

/-! ## C9: the input canvas is never mutated -/

theorem length_alloc (s : Store) (d : List ℕ) :
    (alloc s d).1.cells.length = s.cells.length + 1 := by
  simp [alloc]

theorem snd_alloc (s : Store) (d : List ℕ) : (alloc s d).2 = s.cells.length := rfl

theorem readCell_alloc_self (s : Store) (d : List ℕ) :
    readCell (alloc s d).1 (alloc s d).2 = d := by
  simp [readCell, alloc, List.getD_eq_getElem?_getD]

theorem readCell_alloc_lt (s : Store) (d : List ℕ) (i : ℕ) (hi : i < s.cells.length) :
    readCell (alloc s d).1 i = readCell s i := by
  simp only [readCell, alloc, List.getD_eq_getElem?_getD]
  rw [List.getElem?_append, if_pos hi]

theorem readCell_writeCell_ne (s : Store) (j : ℕ) (d : List ℕ) (i : ℕ) (h : j ≠ i) :
    readCell (writeCell s j d) i = readCell s i := by
  simp [readCell, writeCell, List.getD_eq_getElem?_getD, List.getElem?_set_ne h]

theorem applyEffectH_frame (s : Store) (pid w h : ℕ) (e : ImageEffect) (n : ℕ)
    (hpid : n ≤ pid) (hlen : n ≤ s.cells.length) :
    n ≤ (applyEffectH s pid w h e).2 ∧
      n ≤ (applyEffectH s pid w h e).1.cells.length ∧
      ∀ i, i < n → readCell (applyEffectH s pid w h e).1 i = readCell s i := by
  simp only [applyEffectH]
  split_ifs with h1 h2
  · exact ⟨hpid, hlen, fun i hi => rfl⟩
  · refine ⟨?_, ?_, ?_⟩
    · rw [snd_alloc]; exact hlen
    · rw [length_alloc]; omega
    · intro i hi
      exact readCell_alloc_lt _ _ _ (by omega)
  · refine ⟨hpid, ?_, ?_⟩
    · simp only [writeCell, List.length_set]; exact hlen
    · intro i hi
      exact readCell_writeCell_ne _ _ _ _ (by omega)

theorem effectFold_frame (effects : List ImageEffect) (w h : ℕ) (acc : Store × ℕ) (n : ℕ)
    (hpid : n ≤ acc.2) (hlen : n ≤ acc.1.cells.length) :
    n ≤ (effects.foldl (fun a e => applyEffectH a.1 a.2 w h e) acc).2 ∧
      n ≤ (effects.foldl (fun a e => applyEffectH a.1 a.2 w h e) acc).1.cells.length ∧
      ∀ i, i < n →
        readCell (effects.foldl (fun a e => applyEffectH a.1 a.2 w h e) acc).1 i
          = readCell acc.1 i := by
  induction effects generalizing acc with
  | nil => exact ⟨hpid, hlen, fun _ _ => rfl⟩
  | cons e l ih =>
    obtain ⟨h1, h2, h3⟩ := applyEffectH_frame acc.1 acc.2 w h e n hpid hlen
    obtain ⟨g1, g2, g3⟩ := ih (applyEffectH acc.1 acc.2 w h e) h1 h2
    rw [List.foldl_cons]
    exact ⟨g1, g2, fun i hi => (g3 i hi).trans (h3 i hi)⟩

/-- C9: the entry point never mutates the pixel data of the canvas it
receives: `getImageData` hands it a copy, the explicit
`new Uint8ClampedArray` copy is what the effects mutate in place, and the
result is put into a freshly created canvas — so every heap cell that
existed before the call (in particular the input canvas's backing array)
holds exactly the same bytes afterwards. -/
theorem pipeline_does_not_mutate_input (s : Store) (c : Canvas) (effects : List ImageEffect)
    (i : ℕ) (hi : i < s.cells.length) :
    readCell (applyEffectsToCanvasH s c effects).1 i = readCell s i := by
  simp only [applyEffectsToCanvasH]
  obtain ⟨g1, g2, g3⟩ := effectFold_frame effects c.width c.height
    (alloc (alloc s (readCell s c.dataId)).1
      (readCell (alloc s (readCell s c.dataId)).1 (alloc s (readCell s c.dataId)).2))
    s.cells.length
    (by rw [snd_alloc, length_alloc]; omega)
    (by rw [length_alloc, length_alloc]; omega)
  rw [readCell_alloc_lt _ _ _ (lt_of_lt_of_le hi g2), g3 i hi,
    readCell_alloc_lt _ _ _ (by rw [length_alloc]; omega),
    readCell_alloc_lt _ _ _ hi]


/-- Witness for `pipeline_does_not_mutate_input`: a one-cell heap whose only
array backs the input canvas, run through a singleton dithering chain. -/
theorem pipeline_does_not_mutate_input_witness :
    (0 : ℕ) < (⟨[[1, 2, 3, 4]]⟩ : Store).cells.length ∧
      readCell (applyEffectsToCanvasH ⟨[[1, 2, 3, 4]]⟩ ⟨1, 1, 0⟩
          [⟨"dithering-0", EffectType.dithering, true, {}⟩]).1 0
        = readCell ⟨[[1, 2, 3, 4]]⟩ 0 :=
  ⟨by decide,
    pipeline_does_not_mutate_input ⟨[[1, 2, 3, 4]]⟩ ⟨1, 1, 0⟩
      [⟨"dithering-0", EffectType.dithering, true, {}⟩] 0 (by decide)⟩

/-! ## C1: the empty / all-disabled chain -/

theorem applyEffect_disabled (buf : PixelBuffer) (e : ImageEffect)
    (hd : e.enabled = false) : applyEffect buf e = buf := by
  unfold applyEffect
  rw [if_pos hd]

theorem applyEffectsToCanvas_disabled (buf : PixelBuffer) (effects : List ImageEffect)
    (hdis : ∀ e ∈ effects, e.enabled = false) :
    applyEffectsToCanvas buf effects = buf := by
  unfold applyEffectsToCanvas
  induction effects generalizing buf with
  | nil => rfl
  | cons e l ih =>
    rw [List.foldl_cons, applyEffect_disabled _ _ (hdis e (by simp))]
    exact ih _ fun e' he' => hdis e' (by simp [he'])

theorem applyEffectH_disabled (s : Store) (pid w h : ℕ) (e : ImageEffect)
    (hd : e.enabled = false) : applyEffectH s pid w h e = (s, pid) := by
  unfold applyEffectH
  rw [if_pos hd]

theorem effectFold_disabled (effects : List ImageEffect) (w h : ℕ) (acc : Store × ℕ)
    (hdis : ∀ e ∈ effects, e.enabled = false) :
    effects.foldl (fun a e => applyEffectH a.1 a.2 w h e) acc = acc := by
  induction effects generalizing acc with
  | nil => rfl
  | cons e l ih =>
    rw [List.foldl_cons, applyEffectH_disabled _ _ _ _ _ (hdis e (by simp)), Prod.mk.eta]
    exact ih _ fun e' he' => hdis e' (by simp [he'])

/-- C1 (amended): on an empty or all-disabled chain the entry point returns
a canvas whose pixel data is bit-identical to the input's — the data-level
pipeline is the identity — but the canvas (and its backing array) is a
FRESHLY allocated copy, never the input canvas itself: the code
unconditionally copies twice and writes into a new canvas. -/
theorem empty_or_disabled_chain_copies (s : Store) (c : Canvas) (effects : List ImageEffect)
    (hdis : ∀ e ∈ effects, e.enabled = false) (hc : c.dataId < s.cells.length) :
    readCell (applyEffectsToCanvasH s c effects).1
        (applyEffectsToCanvasH s c effects).2.dataId
      = readCell s c.dataId ∧
      (applyEffectsToCanvasH s c effects).2.dataId ≠ c.dataId ∧
      ∀ buf, applyEffectsToCanvas buf effects = buf := by
  simp only [applyEffectsToCanvasH]
  rw [effectFold_disabled effects c.width c.height _ hdis]
  refine ⟨?_, ?_, fun buf => applyEffectsToCanvas_disabled buf effects hdis⟩
  · rw [readCell_alloc_self, readCell_alloc_self, readCell_alloc_self]
  · rw [snd_alloc, length_alloc, length_alloc]
    omega


/-- C1: the claim that the empty (or all-disabled) chain returns the input
buffer ITSELF — a pass-through, not a copy — is false: on a one-cell heap
with the input canvas backed by cell 0, the empty chain returns a canvas
backed by the freshly allocated cell 3 (after the `getImageData` copy, the
`Uint8ClampedArray` copy, and the output canvas), not cell 0 — though that
cell holds bit-identical data. -/
theorem empty_chain_not_pass_through_cex :
    (applyEffectsToCanvasH ⟨[[1, 2, 3, 4]]⟩ ⟨1, 1, 0⟩ []).2.dataId = 3 ∧
      (applyEffectsToCanvasH ⟨[[1, 2, 3, 4]]⟩ ⟨1, 1, 0⟩ []).2.dataId
        ≠ (⟨1, 1, 0⟩ : Canvas).dataId ∧
      readCell (applyEffectsToCanvasH ⟨[[1, 2, 3, 4]]⟩ ⟨1, 1, 0⟩ []).1
          (applyEffectsToCanvasH ⟨[[1, 2, 3, 4]]⟩ ⟨1, 1, 0⟩ []).2.dataId
        = [1, 2, 3, 4] := by
  have h1 : (applyEffectsToCanvasH ⟨[[1, 2, 3, 4]]⟩ ⟨1, 1, 0⟩ []).2.dataId = 3 := rfl
  refine ⟨h1, ?_, rfl⟩
  rw [h1]
  decide

/-- Witness for `empty_or_disabled_chain_copies`: the empty chain on a
one-cell heap. -/
theorem empty_or_disabled_chain_copies_witness :
    (∀ e ∈ ([] : List ImageEffect), e.enabled = false) ∧
      (⟨1, 1, 0⟩ : Canvas).dataId < (⟨[[9, 9, 9, 9]]⟩ : Store).cells.length ∧
      (readCell (applyEffectsToCanvasH ⟨[[9, 9, 9, 9]]⟩ ⟨1, 1, 0⟩ []).1
          (applyEffectsToCanvasH ⟨[[9, 9, 9, 9]]⟩ ⟨1, 1, 0⟩ []).2.dataId
        = readCell ⟨[[9, 9, 9, 9]]⟩ (⟨1, 1, 0⟩ : Canvas).dataId ∧
        (applyEffectsToCanvasH ⟨[[9, 9, 9, 9]]⟩ ⟨1, 1, 0⟩ []).2.dataId
          ≠ (⟨1, 1, 0⟩ : Canvas).dataId ∧
        ∀ buf, applyEffectsToCanvas buf [] = buf) :=
  ⟨by simp, by decide,
    empty_or_disabled_chain_copies ⟨[[9, 9, 9, 9]]⟩ ⟨1, 1, 0⟩ [] (by simp) (by decide)⟩

/-! ## C8: dithering binarizes R,G,B and preserves alpha -/

theorem getD_diffuse_ne (d : List ℕ) (i : ℕ) (a : ℚ) (j : ℕ) (h : i ≠ j) :
    (diffuse d i a).getD j 0 = d.getD j 0 := by
  unfold diffuse
  exact getD_set_ne _ _ _ _ h

theorem getD_ite_diffuse_ne (P : Prop) [Decidable P] (d : List ℕ) (i : ℕ) (a : ℚ) (j : ℕ)
    (h : P → i ≠ j) : (if P then diffuse d i a else d).getD j 0 = d.getD j 0 := by
  split_ifs with hp
  · exact getD_diffuse_ne d i a j (h hp)
  · rfl

/-- Channel `c` of pixel `p` writes only to its own byte `p*4+c` and to
forward-neighbour bytes `≥ 4*(p+1)` congruent to `c` mod 4: every byte of an
earlier position, every other byte of pixel `p`, and every alpha byte is
untouched. -/
theorem ditherChannel_frame (w h p c : ℕ) (d : List ℕ) (hw : 0 < w) (hc : c < 3) (j : ℕ)
    (hj : (j < 4 * p + 4 ∧ j ≠ 4 * p + c) ∨ j % 4 = 3) :
    (ditherChannel w h p c d).getD j 0 = d.getD j 0 := by
  have h1 : p / w * w + p % w = p := Nat.div_add_mod' p w
  have h2 : (p / w + 1) * w = p / w * w + w := Nat.succ_mul _ _
  have h3 : p % w < w := Nat.mod_lt p hw
  have hkey : ∀ t, t % 4 = c → 4 * p + 4 ≤ t → t ≠ j := by
    intro t ht4 htp
    rcases hj with ⟨hja, hjb⟩ | hj3 <;> omega
  have hidx : p * 4 + c ≠ j := by
    rcases hj with ⟨hja, hjb⟩ | hj3 <;> omega
  have hT1 : p % w + 1 < w → (p / w * w + (p % w + 1)) * 4 + c ≠ j :=
    fun _ => hkey _ (by omega) (by omega)
  have hT2 : p / w + 1 < h ∧ 0 < p % w → ((p / w + 1) * w + (p % w - 1)) * 4 + c ≠ j :=
    fun hg => hkey _ (by omega) (by omega)
  have hT3 : p / w + 1 < h → ((p / w + 1) * w + p % w) * 4 + c ≠ j :=
    fun _ => hkey _ (by omega) (by omega)
  have hT4 : p / w + 1 < h ∧ p % w + 1 < w → ((p / w + 1) * w + (p % w + 1)) * 4 + c ≠ j :=
    fun _ => hkey _ (by omega) (by omega)
  simp only [ditherChannel]
  rw [getD_ite_diffuse_ne _ _ _ _ _ hT4, getD_ite_diffuse_ne _ _ _ _ _ hT3,
    getD_ite_diffuse_ne _ _ _ _ _ hT2, getD_ite_diffuse_ne _ _ _ _ _ hT1,
    getD_set_ne _ _ _ _ hidx]

/-- Channel `c` of pixel `p` holds `0` or `255` once its own `ditherChannel`
pass ran: the binarizing write lands (the index is in range) and no later
diffusion of the same pass touches it. -/
theorem ditherChannel_binarizes (w h p c : ℕ) (d : List ℕ) (hw : 0 < w) (hc : c < 3)
    (hidx : p * 4 + c < d.length) :
    (ditherChannel w h p c d).getD (p * 4 + c) 0 = 0 ∨
      (ditherChannel w h p c d).getD (p * 4 + c) 0 = 255 := by
  have h1 : p / w * w + p % w = p := Nat.div_add_mod' p w
  have h2 : (p / w + 1) * w = p / w * w + w := Nat.succ_mul _ _
  have h3 : p % w < w := Nat.mod_lt p hw
  have hkey : ∀ t, t % 4 = c → 4 * p + 4 ≤ t → t ≠ p * 4 + c := by
    intro t ht4 htp
    omega
  have hT1 : p % w + 1 < w → (p / w * w + (p % w + 1)) * 4 + c ≠ p * 4 + c :=
    fun _ => hkey _ (by omega) (by omega)
  have hT2 : p / w + 1 < h ∧ 0 < p % w →
      ((p / w + 1) * w + (p % w - 1)) * 4 + c ≠ p * 4 + c :=
    fun hg => hkey _ (by omega) (by omega)
  have hT3 : p / w + 1 < h → ((p / w + 1) * w + p % w) * 4 + c ≠ p * 4 + c :=
    fun _ => hkey _ (by omega) (by omega)
  have hT4 : p / w + 1 < h ∧ p % w + 1 < w →
      ((p / w + 1) * w + (p % w + 1)) * 4 + c ≠ p * 4 + c :=
    fun _ => hkey _ (by omega) (by omega)
  simp only [ditherChannel]
  rw [getD_ite_diffuse_ne _ _ _ _ _ hT4, getD_ite_diffuse_ne _ _ _ _ _ hT3,
    getD_ite_diffuse_ne _ _ _ _ _ hT2, getD_ite_diffuse_ne _ _ _ _ _ hT1,
    getD_set_self _ _ _ hidx]
  split_ifs
  · right
    rfl
  · left
    rfl

theorem ditherPixel_step (w h : ℕ) (orig d : List ℕ) (p : ℕ)
    (hw : 0 < w) (hlen : d.length = orig.length) (hfull : orig.length = w * h * 4)
    (hp : p < w * h)
    (hbin : ∀ q, q < p → ∀ c, c < 3 →
      d.getD (q * 4 + c) 0 = 0 ∨ d.getD (q * 4 + c) 0 = 255)
    (halpha : ∀ j, j % 4 = 3 → d.getD j 0 = orig.getD j 0) :
    (ditherPixel w h d p).length = orig.length ∧
      (∀ q, q < p + 1 → ∀ c, c < 3 →
        (ditherPixel w h d p).getD (q * 4 + c) 0 = 0 ∨
          (ditherPixel w h d p).getD (q * 4 + c) 0 = 255) ∧
      ∀ j, j % 4 = 3 → (ditherPixel w h d p).getD j 0 = orig.getD j 0 := by
  have hmul : 4 * (p + 1) ≤ 4 * (w * h) := by omega
  have hL0 : (ditherChannel w h p 0 d).length = d.length := length_ditherChannel w h p 0 d
  have hL1 : (ditherChannel w h p 1 (ditherChannel w h p 0 d)).length = d.length := by
    rw [length_ditherChannel, hL0]
  refine ⟨?_, ?_, ?_⟩
  · simp [ditherPixel, length_ditherChannel, hlen]
  · intro q hq c hc
    by_cases hqp : q < p
    · -- earlier pixels: all three channel passes of pixel p leave byte q*4+c alone
      unfold ditherPixel
      rw [ditherChannel_frame w h p 2 _ hw (by omega) _ (Or.inl ⟨by omega, by omega⟩),
        ditherChannel_frame w h p 1 _ hw (by omega) _ (Or.inl ⟨by omega, by omega⟩),
        ditherChannel_frame w h p 0 _ hw (by omega) _ (Or.inl ⟨by omega, by omega⟩)]
      exact hbin q hqp c hc
    · -- q = p: channel c is binarized by its own pass and preserved by later ones
      have hqe : q = p := by omega
      subst hqe
      unfold ditherPixel
      interval_cases c
      · rw [ditherChannel_frame w h q 2 _ hw (by omega) _ (Or.inl ⟨by omega, by omega⟩),
          ditherChannel_frame w h q 1 _ hw (by omega) _ (Or.inl ⟨by omega, by omega⟩)]
        exact ditherChannel_binarizes w h q 0 d hw (by omega) (by omega)
      · rw [ditherChannel_frame w h q 2 _ hw (by omega) _ (Or.inl ⟨by omega, by omega⟩)]
        exact ditherChannel_binarizes w h q 1 _ hw (by omega) (by omega)
      · exact ditherChannel_binarizes w h q 2 _ hw (by omega) (by omega)
  · intro j hj
    unfold ditherPixel
    rw [ditherChannel_frame w h p 2 _ hw (by omega) _ (Or.inr hj),
      ditherChannel_frame w h p 1 _ hw (by omega) _ (Or.inr hj),
      ditherChannel_frame w h p 0 _ hw (by omega) _ (Or.inr hj)]
    exact halpha j hj

theorem dither_fold_invariant (w h : ℕ) (orig : List ℕ) (hw : 0 < w)
    (hfull : orig.length = w * h * 4) :
    ∀ n, n ≤ w * h →
      ((List.range n).foldl (ditherPixel w h) orig).length = orig.length ∧
        (∀ q, q < n → ∀ c, c < 3 →
          ((List.range n).foldl (ditherPixel w h) orig).getD (q * 4 + c) 0 = 0 ∨
            ((List.range n).foldl (ditherPixel w h) orig).getD (q * 4 + c) 0 = 255) ∧
        ∀ j, j % 4 = 3 →
          ((List.range n).foldl (ditherPixel w h) orig).getD j 0 = orig.getD j 0 := by
  intro n
  induction n with
  | zero => exact fun _ => ⟨rfl, fun q hq => absurd hq (by omega), fun j _ => rfl⟩
  | succ n ih =>
    intro hn
    obtain ⟨l1, l2, l3⟩ := ih (by omega)
    rw [List.range_succ, List.foldl_append, List.foldl_cons, List.foldl_nil]
    exact ditherPixel_step w h orig _ n hw l1 hfull (by omega) l2 l3

/-- C8: after Floyd-Steinberg dithering, every R,G,B byte of every pixel of
a valid buffer is exactly `0` or exactly `255`, and every alpha byte is
unchanged: each pixel's channels are binarized when the pixel is visited in
row-major order, and error is diffused only to bytes of strictly later
pixels (right, below-left, below, below-right, all `≥ 4*(p+1)`) in the same
channel, so no binarized byte is ever modified afterwards and no alpha byte
is ever written. -/
theorem dithering_binarizes (img : PixelBuffer)
    (hlen : img.data.length = img.width * img.height * 4) :
    (∀ p, p < img.width * img.height → ∀ c, c < 3 →
      (applyDithering img).data.getD (p * 4 + c) 0 = 0 ∨
        (applyDithering img).data.getD (p * 4 + c) 0 = 255) ∧
      ∀ j, j % 4 = 3 → (applyDithering img).data.getD j 0 = img.data.getD j 0 := by
  obtain ⟨w, h, d⟩ := img
  simp only at hlen ⊢
  simp only [applyDithering]
  have hcomm : h * w = w * h := Nat.mul_comm h w
  by_cases hwz : w = 0
  · subst hwz
    constructor
    · intro p hp
      omega
    · intro j hj
      rw [show h * 0 = 0 by omega]
      rfl
  · have hw : 0 < w := Nat.pos_of_ne_zero hwz
    obtain ⟨l1, l2, l3⟩ := dither_fold_invariant w h d hw hlen (h * w) (le_of_eq hcomm)
    refine ⟨fun p hp c hc => l2 p (by omega) c hc, l3⟩


/-- Witness for `dithering_binarizes` on a 1×1 buffer `[200, 100, 0, 9]`:
the red byte is binarized and the alpha byte keeps its value `9`. -/
theorem dithering_binarizes_witness :
    (⟨1, 1, [200, 100, 0, 9]⟩ : PixelBuffer).data.length
        = (⟨1, 1, [200, 100, 0, 9]⟩ : PixelBuffer).width
          * (⟨1, 1, [200, 100, 0, 9]⟩ : PixelBuffer).height * 4 ∧
      ((applyDithering ⟨1, 1, [200, 100, 0, 9]⟩).data.getD 0 0 = 0 ∨
        (applyDithering ⟨1, 1, [200, 100, 0, 9]⟩).data.getD 0 0 = 255) ∧
      (applyDithering ⟨1, 1, [200, 100, 0, 9]⟩).data.getD 3 0
        = (⟨1, 1, [200, 100, 0, 9]⟩ : PixelBuffer).data.getD 3 0 :=
  ⟨rfl, (dithering_binarizes ⟨1, 1, [200, 100, 0, 9]⟩ rfl).1 0 (by decide) 0 (by decide),
    (dithering_binarizes ⟨1, 1, [200, 100, 0, 9]⟩ rfl).2 3 (by decide)⟩

end ColorGrid
